import Mathlib

/-!
Shallow embedding of the quote retrieval/deduplication engine of
`zhenxun_plugin_quote` (file `quote/services/quote_service.py`).

The record store (a SQL table accessed through an ORM) is modelled as a
`List Quote`; ORM filter chains become `List.filter`; `.first()` becomes
`List.find?`.  The external word segmenter (`pkuseg`) is an opaque
parameter `segCut : String → List String`.  `random.choice` is modelled
by an extra `pick : Nat` oracle argument selecting index `pick % length`.
The class-level mutable cache `QuoteService._recent_quotes` is threaded
explicitly as an association list `Histories`.
-/

namespace QuoteEngine

/-- The `Quote` ORM model (`quote/model.py`): nullable text columns are
`Option String`, `tags` is the JSON list of strings. -/
structure Quote where
  id : Nat
  group_id : String
  image_path : String
  image_hash : Option String
  ocr_text : Option String
  recorded_text : Option String
  tags : List String
  quoted_user_id : Option String
  uploader_user_id : Option String
  view_count : Nat
deriving DecidableEq, Repr

/-- Placeholder record used only to give `List.getD` a default; every
selection proof shows the index is in bounds, so it is never produced. -/
def defaultQuote : Quote :=
  { id := 0, group_id := "", image_path := "", image_hash := none,
    ocr_text := none, recorded_text := none, tags := [],
    quoted_user_id := none, uploader_user_id := none, view_count := 0 }

instance : Inhabited Quote := ⟨defaultQuote⟩

/-- Python truthiness of an optional string (`if image_hash:` etc.):
`None` and `""` are falsy. -/
def optTruthy : Option String → Bool
  | none => false
  | some s => !(s == "")

/-- Python `str.lower()` as a character list (ASCII case folding, which
is what the queries and tags of the tests exercise). -/
def lowerChars (s : String) : List Char := s.data.map Char.toLower

/-- Python `str.strip()`: drop whitespace from both ends. -/
def pyStrip (s : String) : String :=
  ⟨((s.data.dropWhile Char.isWhitespace).reverse.dropWhile Char.isWhitespace).reverse⟩

/-- Case-insensitive substring test, modelling both the ORM `__icontains`
lookup and Python's `needle.lower() in hay.lower()`. -/
def strContainsCI (hay needle : String) : Bool :=
  (List.range ((lowerChars hay).length + 1)).any
    (fun i => (lowerChars needle).isPrefixOf ((lowerChars hay).drop i))

/-- `field__icontains=kw` on a nullable column: SQL `NULL` never matches. -/
def icontainsOpt (f : Option String) (kw : String) : Bool :=
  match f with
  | none => false
  | some t => strContainsCI t kw

/-- `field__iexact=kw` on a nullable column. -/
def iexactOpt (f : Option String) (kw : String) : Bool :=
  match f with
  | none => false
  | some t => lowerChars t == lowerChars kw

/-- The fixed punctuation/stopword `remove_set` of
`QuoteService.cut_sentence`.  Note the Python source's `""", """,` line is
a triple-quoted string: the element is the two-character string `", "`. -/
def removeSet : List String :=
  [".", ",", "!", "?", ":", ";", "。", "，", "！", "？", "：", "；",
   "%", "$", "\n", " ", "[", "]", "(", ")", "（", "）", "《", "》",
   "<", ">", "「", "」", ", ", "'", "-", "_", "+", "=", "*", "&",
   "^", "#", "@", "~", "`",
   "的", "了", "是", "在", "我", "有", "和", "就", "不", "人", "都",
   "一", "一个", "上", "也", "很", "到", "说", "要", "去", "你", "会",
   "着", "没有", "看", "好", "自己", "这"]

/-- The deduplicated, stopword/blank-filtered token list (`new_words`
before the short-text fallback). -/
def cutFiltered (segCut : String → List String) (text : String) : List String :=
  ((segCut text).dedup).filter (fun w => decide (w ∉ removeSet ∧ pyStrip w ≠ ""))

/-- `QuoteService.cut_sentence`: segment `text`, deduplicate
(`list(set(cut_words))`, modelled by `List.dedup` since the Python set
order is unspecified), drop stopwords/punctuation and blank tokens, and
for short original text (≤ 10 chars) append the stripped original string
when it is non-empty and not itself in the remove set. -/
def cut_sentence (segCut : String → List String) : Option String → List String
  | none => []
  | some text =>
    if text = "" then []
    else if text.length ≤ 10 ∧ pyStrip text ≠ "" ∧ pyStrip text ∉ removeSet then
      cutFiltered segCut text ++ [pyStrip text]
    else cutFiltered segCut text

/-- The class-level cache `QuoteService._recent_quotes : dict[str, list[int]]`,
as an association list from memory key to the list of recently shown ids. -/
abbrev Histories : Type := List (String × List Nat)

/-- `._recent_quotes.get(key, [])`. -/
def histGet : Histories → String → List Nat
  | [], _ => []
  | p :: rest, key => if p.1 = key then p.2 else histGet rest key

/-- `._recent_quotes[key] = v` (overwrite or insert). -/
def histSet : Histories → String → List Nat → Histories
  | [], key, v => [(key, v)]
  | p :: rest, key, v =>
    if p.1 = key then (key, v) :: rest else p :: histSet rest key v

/-- `QuoteService._max_memory_size`. -/
def maxMemorySize : Nat := 10

/-- A raised Python exception (only `ValueError` is relevant here). -/
inductive PyError
  | valueError : String → PyError
deriving DecidableEq, Repr

/-- `random.choice(l)`: the oracle `pick` selects index `pick % l.length`. -/
def chooseFrom (pick : Nat) (l : List Quote) : Quote :=
  l.getD (pick % l.length) defaultQuote

/-- `history.append(id)` followed by `if len > _max_memory_size: pop(0)`. -/
def fifoApp (l : List Nat) (x : Nat) : List Nat :=
  if (l ++ [x]).length > maxMemorySize then (l ++ [x]).drop 1 else l ++ [x]

/-- `unseen_quotes = [q for q in quotes if q.id not in recent_ids]`. -/
def unseenQuotes (hist : Histories) (key : String) (quotes : List Quote) : List Quote :=
  quotes.filter (fun q => decide (q.id ∉ histGet hist key))

/-- The `random.choice` step of `_select_and_record_quote`: choose from
the unseen candidates when there are any, otherwise from the full list. -/
def selectedQuote (pick : Nat) (hist : Histories) (key : String)
    (quotes : List Quote) : Quote :=
  if unseenQuotes hist key quotes = [] then chooseFrom pick quotes
  else chooseFrom pick (unseenQuotes hist key quotes)

/-- `QuoteService._select_and_record_quote`: raise `ValueError` on an empty
candidate list; otherwise pick from the unseen candidates when possible,
else from the full list, then append the chosen id to the key's history
with FIFO trimming.  The returned `Histories` is the class state after the
call (unchanged when the error is raised, since the raise precedes every
mutation). -/
def selectAndRecordQuote (pick : Nat) (hist : Histories) (memoryKey : String)
    (quotes : List Quote) : Except PyError Quote × Histories :=
  if quotes = [] then
    (Except.error (PyError.valueError "语录列表为空"), hist)
  else
    (Except.ok (selectedQuote pick hist memoryKey quotes),
     histSet hist memoryKey
       (fifoApp (histGet hist memoryKey) (selectedQuote pick hist memoryKey quotes).id))

/-- Which `return` site of `search_quote` produced the result. -/
inductive SearchPhase
  | exactText | exactTag | partialText | partialTag | token
deriving DecidableEq, Repr

/-- The user filter of `search_quote`/`get_random_quote`: the
`quoted_user_id` equality filter is only added when the argument is truthy. -/
def userMatch (uf : Option String) (q : Quote) : Bool :=
  match uf with
  | none => true
  | some u => if u = "" then true else q.quoted_user_id == some u

/-- `Quote.filter(**base_query_filters)`: group scope plus optional
quoted-user filter. -/
def scopedQuotes (db : List Quote) (gid : String) (uf : Option String) : List Quote :=
  db.filter (fun q => q.group_id == gid && userMatch uf q)

/-- `memory_key = f"{group_id}_{user_id_filter or 'all'}"`. -/
def memoryKey (gid : String) (uf : Option String) : String :=
  gid ++ "_" ++ (match uf with
                 | none => "all"
                 | some u => if u = "" then "all" else u)

/-- Phase-A candidates: `ocr_text__iexact` matches followed by
`recorded_text__iexact` matches (two queries, concatenated). -/
def exactTextMatches (db : List Quote) (gid : String) (uf : Option String)
    (kw : String) : List Quote :=
  (scopedQuotes db gid uf).filter (fun q => iexactOpt q.ocr_text kw)
    ++ (scopedQuotes db gid uf).filter (fun q => iexactOpt q.recorded_text kw)

/-- Phase-B candidate ids: scoped records having a tag equal
(case-insensitively) to the keyword. -/
def exactTagIds (db : List Quote) (gid : String) (uf : Option String)
    (kw : String) : List Nat :=
  ((scopedQuotes db gid uf).filter
    (fun q => q.tags.any (fun t => lowerChars t == lowerChars kw))).map Quote.id

/-- `Quote.filter(id__in=ids).all()` — a store-wide lookup by id list. -/
def idLookup (db : List Quote) (ids : List Nat) : List Quote :=
  db.filter (fun q => ids.contains q.id)

/-- Phase-C candidates: scoped records whose `ocr_text` or `recorded_text`
contains the whole keyword as a case-insensitive substring. -/
def partialTextMatches (db : List Quote) (gid : String) (uf : Option String)
    (kw : String) : List Quote :=
  (scopedQuotes db gid uf).filter
    (fun q => icontainsOpt q.ocr_text kw || icontainsOpt q.recorded_text kw)

/-- Phase-D candidate ids: scoped records having a tag that contains the
keyword as a case-insensitive substring. -/
def partialTagIds (db : List Quote) (gid : String) (uf : Option String)
    (kw : String) : List Nat :=
  ((scopedQuotes db gid uf).filter
    (fun q => q.tags.any (fun t => strContainsCI t kw))).map Quote.id

/-- Token-phase text candidates: the OR of per-token
`ocr_text__icontains | recorded_text__icontains` conditions. -/
def tokenTextMatches (db : List Quote) (gid : String) (uf : Option String)
    (tokens : List String) : List Quote :=
  (scopedQuotes db gid uf).filter
    (fun q => tokens.any
      (fun tk => icontainsOpt q.ocr_text tk || icontainsOpt q.recorded_text tk))

/-- Token-phase tag candidate ids: scoped records one of whose tags
contains some token. -/
def tokenTagIds (db : List Quote) (gid : String) (uf : Option String)
    (tokens : List String) : List Nat :=
  ((scopedQuotes db gid uf).filter
    (fun q => tokens.any (fun tk => q.tags.any (fun t => strContainsCI t tk)))).map Quote.id

/-- `token_matches = list(set(token_text_matches + token_tag_matches))`. -/
def tokenMatches (db : List Quote) (gid : String) (uf : Option String)
    (tokens : List String) : List Quote :=
  (tokenTextMatches db gid uf tokens ++ idLookup db (tokenTagIds db gid uf tokens)).dedup

/-- Run `_select_and_record_quote` on a phase's candidate set; a raised
`ValueError` is swallowed by the surrounding `except` into a `None`
result (with the history as the selector left it). -/
def runSelect (phase : SearchPhase) (pick : Nat) (hist : Histories)
    (key : String) (cands : List Quote) : Option (SearchPhase × Quote) × Histories :=
  match selectAndRecordQuote pick hist key cands with
  | (Except.ok q, h) => (some (phase, q), h)
  | (Except.error _, h) => (none, h)

/-- `QuoteService.search_quote` (store accesses succeeding): the five
sequential phases, each returning a random pick from its candidate set as
soon as it is non-empty; the result is tagged with the producing phase. -/
def searchQuote (segCut : String → List String) (pick : Nat) (hist : Histories)
    (gid : String) (kw : String) (uf : Option String) (db : List Quote) :
    Option (SearchPhase × Quote) × Histories :=
  if (scopedQuotes db gid uf).length = 0 then (none, hist)
  else if exactTextMatches db gid uf kw ≠ [] then
    runSelect SearchPhase.exactText pick hist (memoryKey gid uf)
      (exactTextMatches db gid uf kw)
  else if exactTagIds db gid uf kw ≠ [] then
    runSelect SearchPhase.exactTag pick hist (memoryKey gid uf)
      (idLookup db (exactTagIds db gid uf kw))
  else if partialTextMatches db gid uf kw ≠ [] then
    runSelect SearchPhase.partialText pick hist (memoryKey gid uf)
      (partialTextMatches db gid uf kw)
  else if partialTagIds db gid uf kw ≠ [] then
    runSelect SearchPhase.partialTag pick hist (memoryKey gid uf)
      (idLookup db (partialTagIds db gid uf kw))
  else if cut_sentence segCut (some kw) = [] then (none, hist)
  else if tokenMatches db gid uf (cut_sentence segCut (some kw)) ≠ [] then
    runSelect SearchPhase.token pick hist (memoryKey gid uf)
      (tokenMatches db gid uf (cut_sentence segCut (some kw)))
  else (none, hist)

/-- `Quote.filter(group_id=..., image_hash=...)` predicate of `add_quote`. -/
def hashMatch (gid : String) (h : Option String) (q : Quote) : Bool :=
  q.group_id == gid && q.image_hash == h

/-- `Quote.filter(group_id=..., recorded_text=..., quoted_user_id=...)`
predicate of `add_quote`. -/
def textUserMatch (gid : String) (rec qu : Option String) (q : Quote) : Bool :=
  q.group_id == gid && q.recorded_text == rec && q.quoted_user_id == qu

/-- The row inserted by `Quote.get_or_create`'s `defaults`. -/
def mkQuote (nid : Nat) (gid path : String) (hash ocr rec qu up : Option String)
    (tags : List String) : Quote :=
  { id := nid, group_id := gid, image_path := path, image_hash := hash,
    ocr_text := ocr, recorded_text := rec, tags := tags,
    quoted_user_id := qu, uploader_user_id := up, view_count := 0 }

/-- `tags = QuoteService.cut_sentence(tags_source) if tags_source else []`
with `tags_source = ocr_content if ocr_content else recorded_text`. -/
def quoteTags (segCut : String → List String) (ocr rec : Option String) :
    List String :=
  if optTruthy (if optTruthy ocr then ocr else rec) then
    cut_sentence segCut (if optTruthy ocr then ocr else rec)
  else []

/-- The `Quote.get_or_create(image_path=..., defaults=...)` step of
`add_quote`: return the existing row with that `image_path`, else insert
a fresh row. -/
def addQuoteCreate (segCut : String → List String) (db : List Quote) (nid : Nat)
    (gid path : String) (ocr rec qu hash up : Option String) :
    (Option Quote × Bool) × List Quote :=
  match db.find? (fun q => q.image_path == path) with
  | some q => ((some q, false), db)
  | none =>
    ((some (mkQuote nid gid path hash ocr rec qu up (quoteTags segCut ocr rec)), true),
     db ++ [mkQuote nid gid path hash ocr rec qu up (quoteTags segCut ocr rec)])

/-- The `recorded_text`/`quoted_user_id` duplicate check of `add_quote`
(runs only when both are truthy), falling through to `get_or_create`. -/
def addQuoteTextStage (segCut : String → List String) (db : List Quote) (nid : Nat)
    (gid path : String) (ocr rec qu hash up : Option String) :
    (Option Quote × Bool) × List Quote :=
  if optTruthy rec && optTruthy qu then
    match db.find? (textUserMatch gid rec qu) with
    | some q => ((some q, false), db)
    | none => addQuoteCreate segCut db nid gid path ocr rec qu hash up
  else addQuoteCreate segCut db nid gid path ocr rec qu hash up

/-- `QuoteService.add_quote` (store accesses succeeding): hash-duplicate
check, then text+author duplicate check, then `get_or_create` keyed on
`image_path`.  Returns `((quote?, isNew), store after the call)`. -/
def addQuote (segCut : String → List String) (db : List Quote) (nid : Nat)
    (gid path : String) (ocr rec qu hash up : Option String) :
    (Option Quote × Bool) × List Quote :=
  if optTruthy hash then
    match db.find? (hashMatch gid hash) with
    | some q => ((some q, false), db)
    | none => addQuoteTextStage segCut db nid gid path ocr rec qu hash up
  else addQuoteTextStage segCut db nid gid path ocr rec qu hash up

/-- Collapse the selector's `Except` into `get_random_quote`'s
`Quote | None` (the broad `except` turns a raise into `None`). -/
def toOpt : Except PyError Quote × Histories → Option Quote × Histories
  | (Except.ok q, h) => (some q, h)
  | (Except.error _, h) => (none, h)

/-- `QuoteService.get_random_quote` (store accesses succeeding): count the
scoped records; when the count exceeds the memory size, exclude recently
shown ids, and when that exclusion empties the candidate set, reset the
key's history and reselect from the full scoped set. -/
def getRandomQuote (pick : Nat) (hist : Histories) (gid : String)
    (uf : Option String) (db : List Quote) : Option Quote × Histories :=
  if (scopedQuotes db gid uf).length = 0 then (none, hist)
  else if (scopedQuotes db gid uf).length ≤ maxMemorySize then
    toOpt (selectAndRecordQuote pick hist (memoryKey gid uf) (scopedQuotes db gid uf))
  else if histGet hist (memoryKey gid uf) = [] then
    toOpt (selectAndRecordQuote pick hist (memoryKey gid uf) (scopedQuotes db gid uf))
  else if (scopedQuotes db gid uf).filter
      (fun q => decide (q.id ∉ histGet hist (memoryKey gid uf))) = [] then
    toOpt (selectAndRecordQuote pick (histSet hist (memoryKey gid uf) [])
      (memoryKey gid uf) (scopedQuotes db gid uf))
  else
    toOpt (selectAndRecordQuote pick hist (memoryKey gid uf)
      ((scopedQuotes db gid uf).filter
        (fun q => decide (q.id ∉ histGet hist (memoryKey gid uf)))))

/-- Direct (non-token) match predicate of `search_quotes_for_deletion`:
text substring match. -/
def delTextCond (kw : String) (q : Quote) : Bool :=
  icontainsOpt q.ocr_text kw || icontainsOpt q.recorded_text kw

/-- Direct tag match predicate of `search_quotes_for_deletion`. -/
def delTagCond (kw : String) (q : Quote) : Bool :=
  q.tags.any (fun t => strContainsCI t kw)

/-- The direct text matches of `search_quotes_for_deletion`. -/
def delTextMatches (db : List Quote) (gid : String) (uf : Option String)
    (kw : String) : List Quote :=
  (scopedQuotes db gid uf).filter (delTextCond kw)

/-- `new_tag_match_ids = tag_match_ids - {q.id for q in matched}`:
tag-matching ids not already collected by the text pass. -/
def delNewTagIds (db : List Quote) (gid : String) (uf : Option String)
    (kw : String) : List Nat :=
  (((scopedQuotes db gid uf).filter (delTagCond kw)).map Quote.id).filter
    (fun i => decide (i ∉ (delTextMatches db gid uf kw).map Quote.id))

/-- `matched_quotes_set` after the two direct (non-token) passes. -/
def delDirectMatches (db : List Quote) (gid : String) (uf : Option String)
    (kw : String) : List Quote :=
  delTextMatches db gid uf kw ++ idLookup db (delNewTagIds db gid uf kw)

/-- The token-pass tag ids of `search_quotes_for_deletion`: scoped records
not already collected whose tags contain some token. -/
def delTokenTagIds (db : List Quote) (gid : String) (uf : Option String)
    (tokens : List String) (already : List Nat) : List Nat :=
  ((scopedQuotes db gid uf).filter
    (fun q => decide (q.id ∉ already) &&
      tokens.any (fun tk => q.tags.any (fun t => strContainsCI t tk)))).map Quote.id

/-- `QuoteService.search_quotes_for_deletion` (store accesses
succeeding): union of text-substring matches and tag-substring matches;
only when that union is empty, a token fallback over `cut_sentence`
tokens (text OR tags, any token) is applied.  Later passes skip ids
already collected, mirroring the id-difference steps in the source. -/
def searchQuotesForDeletion (segCut : String → List String) (gid : String)
    (kw : String) (uf : Option String) (db : List Quote) : List Quote :=
  if (scopedQuotes db gid uf).length = 0 then []
  else if delDirectMatches db gid uf kw ≠ [] then delDirectMatches db gid uf kw
  else if cut_sentence segCut (some kw) = [] then []
  else
    tokenTextMatches db gid uf (cut_sentence segCut (some kw)) ++
      idLookup db (delTokenTagIds db gid uf (cut_sentence segCut (some kw))
        ((tokenTextMatches db gid uf (cut_sentence segCut (some kw))).map Quote.id))

/-- `search_quote` when a store access raises: the broad `except` handler
logs and returns `None`; the in-memory history is untouched because every
mutation is immediately followed by a `return`. -/
def searchQuoteStore (storeFails : Bool) (segCut : String → List String)
    (pick : Nat) (hist : Histories) (gid : String) (kw : String)
    (uf : Option String) (db : List Quote) : Option (SearchPhase × Quote) × Histories :=
  if storeFails then (none, hist) else searchQuote segCut pick hist gid kw uf db

/-- `get_random_quote` when a store access raises: `except` returns `None`. -/
def getRandomQuoteStore (storeFails : Bool) (pick : Nat) (hist : Histories)
    (gid : String) (uf : Option String) (db : List Quote) : Option Quote × Histories :=
  if storeFails then (none, hist) else getRandomQuote pick hist gid uf db

/-- `add_quote` when a store access raises: `except` returns `(None, False)`
and no row is inserted. -/
def addQuoteStore (storeFails : Bool) (segCut : String → List String)
    (db : List Quote) (nid : Nat) (gid path : String)
    (ocr rec qu hash up : Option String) : (Option Quote × Bool) × List Quote :=
  if storeFails then ((none, false), db)
  else addQuote segCut db nid gid path ocr rec qu hash up

/-- `QuoteService.add_tags`: `list(set(current).union(set(new)))` —
the union without duplicates (Python's set order is unspecified). -/
def add_tags (quoteTags newTags : List String) : List String :=
  (quoteTags ++ newTags).dedup

/-- `QuoteService.delete_tags`: `list(set(current) - set(remove))`. -/
def delete_tags (quoteTags removeTags : List String) : List String :=
  quoteTags.dedup.filter (fun t => decide (t ∉ removeTags))

/-! Concrete fixtures used by witnesses and counterexamples. -/

/-- A minimal concrete record in group `"g"` with id `n`. -/
def wq (n : Nat) : Quote :=
  { id := n, group_id := "g", image_path := "p" ++ toString n, image_hash := none,
    ocr_text := none, recorded_text := none, tags := [],
    quoted_user_id := none, uploader_user_id := none, view_count := 0 }

/-- Concrete tokenizer instantiation for witnesses: the whole text is the
single token (the tokenizer is an opaque external adapter, so any function
is a valid instance). -/
def segIdent : String → List String := fun s => [s]

/-- Concrete tokenizer that segments the query `"alpha beta"` into its two
words. -/
def segAlphaBeta : String → List String := fun _ => ["alpha", "beta"]

/-- Concrete tokenizer that segments the keyword `"zzz hello"` into its
two words. -/
def segZzzHello : String → List String := fun _ => ["zzz", "hello"]

/-- Record whose `ocr_text` contains the query `"hello"` as a substring. -/
def sqHello1 : Quote := { wq 1 with ocr_text := some "hello world" }

/-- Record whose text does not contain `"hello"` but whose tag equals it. -/
def sqHello2 : Quote := { wq 2 with ocr_text := some "xyz", tags := ["hello"] }

/-- Record containing the term `"alpha"` but not `"beta"`. -/
def sqAlpha : Quote := { wq 1 with ocr_text := some "alpha only" }

/-- Record whose texts lack `"abc"` but which carries the tag `"abc"`. -/
def delTagQuote : Quote := { wq 1 with ocr_text := some "xyz", tags := ["abc"] }

/-- Record containing the token `"hello"` but not the phrase `"zzz hello"`. -/
def delTokQuote : Quote := { wq 2 with ocr_text := some "hello world" }

/-- Eleven scoped records, ids 1..11, for the history-reset branch. -/
def bigDb : List Quote := (List.range 11).map (fun n => wq (n + 1))

/-- History marking all eleven ids of `bigDb` as recently shown. -/
def bigHist : Histories := [("g_all", (List.range 11).map (fun n => n + 1))]

end QuoteEngine

namespace QuoteEngine

/-! Helper lemmas. -/

theorem histGet_histSet_self (hist : Histories) (k : String) (v : List Nat) :
    histGet (histSet hist k v) k = v := by
  induction hist with
  | nil => simp [histSet, histGet]
  | cons p rest ih =>
    by_cases h : p.1 = k
    · simp [histSet, h, histGet]
    · simp [histSet, h, histGet, ih]

theorem histGet_histSet_ne (hist : Histories) (k k' : String) (v : List Nat)
    (h : k' ≠ k) : histGet (histSet hist k v) k' = histGet hist k' := by
  have hkk : ¬(k = k') := fun hh => h hh.symm
  induction hist with
  | nil => simp [histSet, histGet, hkk]
  | cons p rest ih =>
    by_cases hp : p.1 = k
    · simp [histSet, histGet, hp, hkk]
    · simp only [histSet, if_neg hp, histGet]
      by_cases hpk : p.1 = k'
      · simp [hpk]
      · simp [hpk, ih]

theorem fifoApp_length_le (l : List Nat) (x : Nat)
    (h : l.length ≤ maxMemorySize) : (fifoApp l x).length ≤ maxMemorySize := by
  unfold fifoApp
  by_cases hl : (l ++ [x]).length > maxMemorySize
  · rw [if_pos hl]
    simp only [List.length_drop, List.length_append, List.length_singleton]
    omega
  · rw [if_neg hl]
    omega

theorem chooseFrom_mem (pick : Nat) (l : List Quote) (h : l ≠ []) :
    chooseFrom pick l ∈ l := by
  unfold chooseFrom
  have hlen : 0 < l.length := List.length_pos.mpr h
  have hlt : pick % l.length < l.length := Nat.mod_lt _ hlen
  rw [List.getD_eq_getElem?_getD, List.getElem?_eq_getElem hlt]
  exact List.getElem_mem hlt

theorem selectedQuote_mem (pick : Nat) (hist : Histories) (key : String)
    (quotes : List Quote) (h : quotes ≠ []) :
    selectedQuote pick hist key quotes ∈ quotes := by
  unfold selectedQuote
  by_cases hu : unseenQuotes hist key quotes = []
  · rw [if_pos hu]; exact chooseFrom_mem _ _ h
  · rw [if_neg hu]
    exact (List.mem_filter.mp (chooseFrom_mem _ _ hu)).1

theorem selectedQuote_unseen (pick : Nat) (hist : Histories) (key : String)
    (quotes : List Quote) (hc : ∃ c ∈ quotes, c.id ∉ histGet hist key) :
    (selectedQuote pick hist key quotes).id ∉ histGet hist key := by
  obtain ⟨c, hcm, hcid⟩ := hc
  have hu : unseenQuotes hist key quotes ≠ [] := by
    intro hnil
    have : c ∈ unseenQuotes hist key quotes :=
      List.mem_filter.mpr ⟨hcm, by simpa using hcid⟩
    rw [hnil] at this
    exact absurd this (List.not_mem_nil c)
  unfold selectedQuote
  rw [if_neg hu]
  have hm := chooseFrom_mem pick (unseenQuotes hist key quotes) hu
  unfold unseenQuotes at hm
  exact of_decide_eq_true (List.mem_filter.mp hm).2

theorem selectAndRecord_ok (pick : Nat) (hist : Histories) (key : String)
    (quotes : List Quote) (h : quotes ≠ []) :
    selectAndRecordQuote pick hist key quotes =
      (Except.ok (selectedQuote pick hist key quotes),
       histSet hist key
         (fifoApp (histGet hist key) (selectedQuote pick hist key quotes).id)) := by
  unfold selectAndRecordQuote
  rw [if_neg h]

theorem contains_iff_mem_nat (l : List Nat) (a : Nat) :
    l.contains a = true ↔ a ∈ l := by
  simp

theorem scoped_sub_db (db : List Quote) (gid : String) (uf : Option String)
    (q : Quote) (h : q ∈ scopedQuotes db gid uf) : q ∈ db :=
  (List.mem_filter.mp h).1

theorem runSelect_ok (ph : SearchPhase) (pick : Nat) (hist : Histories)
    (key : String) (cands : List Quote) (h : cands ≠ []) :
    runSelect ph pick hist key cands =
      (some (ph, selectedQuote pick hist key cands),
       histSet hist key
         (fifoApp (histGet hist key) (selectedQuote pick hist key cands).id)) := by
  unfold runSelect
  rw [selectAndRecord_ok _ _ _ _ h]

theorem iexact_icontains (f : Option String) (kw : String)
    (h : iexactOpt f kw = true) : icontainsOpt f kw = true := by
  cases f with
  | none => simp [iexactOpt] at h
  | some t =>
    have heq : lowerChars t = lowerChars kw := by
      simpa [iexactOpt] using h
    simp only [icontainsOpt, strContainsCI]
    rw [List.any_eq_true]
    refine ⟨0, List.mem_range.mpr (by omega), ?_⟩
    simp [heq, List.isPrefixOf_iff_prefix]

theorem exactText_sub_partialText (db : List Quote) (gid : String)
    (uf : Option String) (kw : String) (q : Quote)
    (hq : q ∈ exactTextMatches db gid uf kw) :
    q ∈ partialTextMatches db gid uf kw := by
  unfold exactTextMatches at hq
  unfold partialTextMatches
  rcases List.mem_append.mp hq with h | h
  · obtain ⟨hs, hx⟩ := List.mem_filter.mp h
    exact List.mem_filter.mpr ⟨hs, by simp [iexact_icontains _ _ hx]⟩
  · obtain ⟨hs, hx⟩ := List.mem_filter.mp h
    exact List.mem_filter.mpr ⟨hs, by simp [iexact_icontains _ _ hx]⟩

theorem mem_idLookup_iff (db : List Quote) (ids : List Nat) (q : Quote) :
    q ∈ idLookup db ids ↔ q ∈ db ∧ q.id ∈ ids := by
  unfold idLookup
  rw [List.mem_filter, contains_iff_mem_nat]

theorem idLookup_ne_nil (db : List Quote) (ids : List Nat)
    (hsub : ∀ i ∈ ids, ∃ q ∈ db, q.id = i) (h : ids ≠ []) :
    idLookup db ids ≠ [] := by
  obtain ⟨i, hi⟩ := List.exists_mem_of_ne_nil ids h
  obtain ⟨q, hq, hqid⟩ := hsub i hi
  exact List.ne_nil_of_mem ((mem_idLookup_iff db ids q).mpr ⟨hq, hqid ▸ hi⟩)

theorem exactTagIds_sub (db : List Quote) (gid : String) (uf : Option String)
    (kw : String) : ∀ i ∈ exactTagIds db gid uf kw, ∃ q ∈ db, q.id = i := by
  intro i hi
  obtain ⟨q, hq, hqi⟩ := List.mem_map.mp hi
  exact ⟨q, scoped_sub_db db gid uf q (List.mem_filter.mp hq).1, hqi⟩

theorem partialTagIds_sub (db : List Quote) (gid : String) (uf : Option String)
    (kw : String) : ∀ i ∈ partialTagIds db gid uf kw, ∃ q ∈ db, q.id = i := by
  intro i hi
  obtain ⟨q, hq, hqi⟩ := List.mem_map.mp hi
  exact ⟨q, scoped_sub_db db gid uf q (List.mem_filter.mp hq).1, hqi⟩

theorem addQuote_fst_isSome (segCut : String → List String) (db : List Quote)
    (nid : Nat) (gid path : String) (ocr rec qu hash up : Option String) :
    (addQuote segCut db nid gid path ocr rec qu hash up).1.1.isSome = true := by
  unfold addQuote addQuoteTextStage addQuoteCreate
  repeat' split
  all_goals rfl

theorem mem_delDirect_iff (db : List Quote) (gid : String) (uf : Option String)
    (kw : String) (hnodup : (db.map Quote.id).Nodup) (q : Quote) :
    q ∈ delDirectMatches db gid uf kw ↔
      q ∈ scopedQuotes db gid uf ∧
        (delTextCond kw q = true ∨ delTagCond kw q = true) := by
  constructor
  · intro h
    rcases List.mem_append.mp h with h | h
    · obtain ⟨hs, hx⟩ := List.mem_filter.mp h
      exact ⟨hs, Or.inl hx⟩
    · obtain ⟨hdb, hid⟩ := (mem_idLookup_iff _ _ _).mp h
      unfold delNewTagIds at hid
      obtain ⟨hid1, _⟩ := List.mem_filter.mp hid
      obtain ⟨q0, hq0, hq0id⟩ := List.mem_map.mp hid1
      obtain ⟨hq0s, hq0tag⟩ := List.mem_filter.mp hq0
      have heq : q0 = q :=
        List.inj_on_of_nodup_map hnodup (scoped_sub_db _ _ _ _ hq0s) hdb hq0id
      subst heq
      exact ⟨hq0s, Or.inr hq0tag⟩
  · rintro ⟨hs, hx | hx⟩
    · exact List.mem_append_left _ (List.mem_filter.mpr ⟨hs, hx⟩)
    · by_cases ht : delTextCond kw q = true
      · exact List.mem_append_left _ (List.mem_filter.mpr ⟨hs, ht⟩)
      · refine List.mem_append_right _ ((mem_idLookup_iff _ _ _).mpr
          ⟨scoped_sub_db _ _ _ _ hs, ?_⟩)
        unfold delNewTagIds
        refine List.mem_filter.mpr
          ⟨List.mem_map.mpr ⟨q, List.mem_filter.mpr ⟨hs, hx⟩, rfl⟩, ?_⟩
        rw [decide_eq_true_iff]
        intro hmem
        obtain ⟨q1, hq1, hq1id⟩ := List.mem_map.mp hmem
        obtain ⟨hq1s, hq1t⟩ := List.mem_filter.mp hq1
        have heq : q1 = q := List.inj_on_of_nodup_map hnodup
          (scoped_sub_db _ _ _ _ hq1s) (scoped_sub_db _ _ _ _ hs) hq1id
        exact ht (heq ▸ hq1t)

theorem mem_delToken_iff (db : List Quote) (gid : String) (uf : Option String)
    (tokens : List String) (hnodup : (db.map Quote.id).Nodup) (q : Quote) :
    q ∈ tokenTextMatches db gid uf tokens ++
        idLookup db (delTokenTagIds db gid uf tokens
          ((tokenTextMatches db gid uf tokens).map Quote.id)) ↔
      q ∈ scopedQuotes db gid uf ∧
        (tokens.any (fun tk => icontainsOpt q.ocr_text tk ||
            icontainsOpt q.recorded_text tk) = true ∨
         tokens.any (fun tk => q.tags.any (fun t => strContainsCI t tk)) = true) := by
  constructor
  · intro h
    rcases List.mem_append.mp h with h | h
    · obtain ⟨hs, hx⟩ := List.mem_filter.mp h
      exact ⟨hs, Or.inl hx⟩
    · obtain ⟨hdb, hid⟩ := (mem_idLookup_iff _ _ _).mp h
      unfold delTokenTagIds at hid
      obtain ⟨q0, hq0, hq0id⟩ := List.mem_map.mp hid
      obtain ⟨hq0s, hq0x⟩ := List.mem_filter.mp hq0
      have heq : q0 = q :=
        List.inj_on_of_nodup_map hnodup (scoped_sub_db _ _ _ _ hq0s) hdb hq0id
      subst heq
      rw [Bool.and_eq_true] at hq0x
      exact ⟨hq0s, Or.inr hq0x.2⟩
  · rintro ⟨hs, hx | hx⟩
    · exact List.mem_append_left _ (List.mem_filter.mpr ⟨hs, hx⟩)
    · by_cases ht : tokens.any (fun tk => icontainsOpt q.ocr_text tk ||
          icontainsOpt q.recorded_text tk) = true
      · exact List.mem_append_left _ (List.mem_filter.mpr ⟨hs, ht⟩)
      · refine List.mem_append_right _ ((mem_idLookup_iff _ _ _).mpr
          ⟨scoped_sub_db _ _ _ _ hs, ?_⟩)
        unfold delTokenTagIds
        refine List.mem_map.mpr ⟨q, List.mem_filter.mpr ⟨hs, ?_⟩, rfl⟩
        rw [Bool.and_eq_true]
        refine ⟨?_, hx⟩
        rw [decide_eq_true_iff]
        intro hmem
        obtain ⟨q1, hq1, hq1id⟩ := List.mem_map.mp hmem
        obtain ⟨hq1s, hq1t⟩ := List.mem_filter.mp hq1
        have heq : q1 = q := List.inj_on_of_nodup_map hnodup
          (scoped_sub_db _ _ _ _ hq1s) (scoped_sub_db _ _ _ _ hs) hq1id
        exact ht (heq ▸ hq1t)

theorem delDirect_scope_ne (db : List Quote) (gid : String) (uf : Option String)
    (kw : String) (h : delDirectMatches db gid uf kw ≠ []) :
    ¬ (scopedQuotes db gid uf).length = 0 := by
  obtain ⟨q, hq⟩ := List.exists_mem_of_ne_nil _ h
  rcases List.mem_append.mp hq with h1 | h1
  · have hs := (List.mem_filter.mp h1).1
    simpa [List.length_eq_zero] using List.ne_nil_of_mem hs
  · have hid := ((mem_idLookup_iff _ _ _).mp h1).2
    unfold delNewTagIds at hid
    have hid1 := (List.mem_filter.mp hid).1
    obtain ⟨q0, hq0, _⟩ := List.mem_map.mp hid1
    have hs := (List.mem_filter.mp hq0).1
    simpa [List.length_eq_zero] using List.ne_nil_of_mem hs

theorem histSet_histSet (hist : Histories) (k : String) (v w : List Nat) :
    histSet (histSet hist k v) k w = histSet hist k w := by
  induction hist with
  | nil => simp [histSet]
  | cons p rest ih =>
    by_cases hp : p.1 = k
    · simp [histSet, hp]
    · simp [histSet, hp, ih]

theorem fifoApp_nil (x : Nat) : fifoApp [] x = [x] := by
  simp [fifoApp, maxMemorySize]

theorem addQuote_isNew_shape (segCut : String → List String) (db : List Quote)
    (nid : Nat) (gid path : String) (ocr rec qu hash up : Option String)
    (hnew : (addQuote segCut db nid gid path ocr rec qu hash up).1.2 = true) :
    (optTruthy hash = true → db.find? (hashMatch gid hash) = none) ∧
    (optTruthy rec = true → optTruthy qu = true →
      db.find? (textUserMatch gid rec qu) = none) ∧
    db.find? (fun q => q.image_path == path) = none ∧
    addQuote segCut db nid gid path ocr rec qu hash up =
      ((some (mkQuote nid gid path hash ocr rec qu up (quoteTags segCut ocr rec)), true),
       db ++ [mkQuote nid gid path hash ocr rec qu up (quoteTags segCut ocr rec)]) := by
  have hcreate : ∀ h2 : (addQuoteCreate segCut db nid gid path ocr rec qu hash up).1.2 = true,
      db.find? (fun q => q.image_path == path) = none ∧
      addQuoteCreate segCut db nid gid path ocr rec qu hash up =
        ((some (mkQuote nid gid path hash ocr rec qu up (quoteTags segCut ocr rec)), true),
         db ++ [mkQuote nid gid path hash ocr rec qu up (quoteTags segCut ocr rec)]) := by
    intro h2
    rcases hfp : db.find? (fun q => q.image_path == path) with _ | q
    · exact ⟨hfp, by simp [addQuoteCreate, hfp]⟩
    · exfalso
      simp [addQuoteCreate, hfp] at h2
  have htext : ∀ h2 : (addQuoteTextStage segCut db nid gid path ocr rec qu hash up).1.2 = true,
      (optTruthy rec = true → optTruthy qu = true →
        db.find? (textUserMatch gid rec qu) = none) ∧
      addQuoteTextStage segCut db nid gid path ocr rec qu hash up =
        addQuoteCreate segCut db nid gid path ocr rec qu hash up ∧
      (addQuoteCreate segCut db nid gid path ocr rec qu hash up).1.2 = true := by
    intro h2
    cases hrq : (optTruthy rec && optTruthy qu) with
    | false =>
      refine ⟨?_, by simp [addQuoteTextStage, hrq], ?_⟩
      · intro hr hq
        rw [hr, hq] at hrq
        exact absurd hrq (by simp)
      · simpa [addQuoteTextStage, hrq] using h2
    | true =>
      rcases hft : db.find? (textUserMatch gid rec qu) with _ | q
      · exact ⟨fun _ _ => rfl, by simp [addQuoteTextStage, hrq, hft],
          by simpa [addQuoteTextStage, hrq, hft] using h2⟩
      · exfalso
        simp [addQuoteTextStage, hrq, hft] at h2
  cases hh : optTruthy hash with
  | false =>
    have hts : (addQuoteTextStage segCut db nid gid path ocr rec qu hash up).1.2 = true := by
      simpa [addQuote, hh] using hnew
    obtain ⟨ht1, ht2, ht3⟩ := htext hts
    obtain ⟨hc1, hc2⟩ := hcreate ht3
    refine ⟨by simp [hh], ht1, hc1, ?_⟩
    rw [show addQuote segCut db nid gid path ocr rec qu hash up =
      addQuoteTextStage segCut db nid gid path ocr rec qu hash up by simp [addQuote, hh],
      ht2, hc2]
  | true =>
    rcases hf : db.find? (hashMatch gid hash) with _ | q
    · have hts : (addQuoteTextStage segCut db nid gid path ocr rec qu hash up).1.2 = true := by
        simpa [addQuote, hh, hf] using hnew
      obtain ⟨ht1, ht2, ht3⟩ := htext hts
      obtain ⟨hc1, hc2⟩ := hcreate ht3
      refine ⟨fun _ => rfl, ht1, hc1, ?_⟩
      rw [show addQuote segCut db nid gid path ocr rec qu hash up =
        addQuoteTextStage segCut db nid gid path ocr rec qu hash up by
          simp [addQuote, hh, hf],
        ht2, hc2]
    · exfalso
      simp [addQuote, hh, hf] at hnew

/-! Claim theorems. -/

/-- C3: `add_quote` returns an existing same-group record with
`isNew = false` when the image hash matches (priority 1) or, failing that,
when both `recorded_text` and `quoted_user_id` match exactly (priority 2),
inserting nothing; a new row is created with `isNew = true` only when
neither duplicate check matched, and ingesting the same hash twice into
one group leaves the store unchanged on the second call, which returns the
first call's record with `isNew = false`. -/
theorem add_quote_dedup (segCut : String → List String) (db : List Quote)
    (nid : Nat) (gid path : String) (ocr rec qu hash up : Option String) :
    (optTruthy hash = true → ∀ q0, db.find? (hashMatch gid hash) = some q0 →
      addQuote segCut db nid gid path ocr rec qu hash up = ((some q0, false), db)) ∧
    ((optTruthy hash = true → db.find? (hashMatch gid hash) = none) →
      optTruthy rec = true → optTruthy qu = true →
      ∀ q0, db.find? (textUserMatch gid rec qu) = some q0 →
      addQuote segCut db nid gid path ocr rec qu hash up = ((some q0, false), db)) ∧
    ((addQuote segCut db nid gid path ocr rec qu hash up).1.2 = true →
      (optTruthy hash = true → db.find? (hashMatch gid hash) = none) ∧
      (optTruthy rec = true → optTruthy qu = true →
        db.find? (textUserMatch gid rec qu) = none) ∧
      ∃ nq, addQuote segCut db nid gid path ocr rec qu hash up =
          ((some nq, true), db ++ [nq]) ∧ nq.group_id = gid ∧ nq.image_hash = hash) ∧
    (optTruthy hash = true →
      (addQuote segCut db nid gid path ocr rec qu hash up).1.2 = true →
      ∀ (segCut2 : String → List String) (nid2 : Nat) (path2 : String)
        (ocr2 rec2 qu2 up2 : Option String),
        ∃ q1, (addQuote segCut db nid gid path ocr rec qu hash up).1.1 = some q1 ∧
          addQuote segCut2 (addQuote segCut db nid gid path ocr rec qu hash up).2
              nid2 gid path2 ocr2 rec2 qu2 hash up2 =
            ((some q1, false),
             (addQuote segCut db nid gid path ocr rec qu hash up).2)) := by
  refine ⟨?_, ?_, ?_, ?_⟩
  · intro hh q0 hf
    simp [addQuote, hh, hf]
  · intro hno hr hq q0 hf
    cases hh : optTruthy hash with
    | false => simp [addQuote, hh, addQuoteTextStage, hr, hq, hf]
    | true => simp [addQuote, hh, hno hh, addQuoteTextStage, hr, hq, hf]
  · intro hnew
    obtain ⟨h1, h2, _, h4⟩ :=
      addQuote_isNew_shape segCut db nid gid path ocr rec qu hash up hnew
    exact ⟨h1, h2, mkQuote nid gid path hash ocr rec qu up (quoteTags segCut ocr rec),
      h4, rfl, rfl⟩
  · intro hh hnew segCut2 nid2 path2 ocr2 rec2 qu2 up2
    obtain ⟨h1, _, _, h4⟩ :=
      addQuote_isNew_shape segCut db nid gid path ocr rec qu hash up hnew
    refine ⟨mkQuote nid gid path hash ocr rec qu up (quoteTags segCut ocr rec),
      by rw [h4], ?_⟩
    rw [h4]
    have hfind : (db ++ [mkQuote nid gid path hash ocr rec qu up
        (quoteTags segCut ocr rec)]).find? (hashMatch gid hash) =
        some (mkQuote nid gid path hash ocr rec qu up (quoteTags segCut ocr rec)) := by
      rw [List.find?_append, h1 hh]
      simp [List.find?, hashMatch, mkQuote]
    simp [addQuote, hh, hfind]

/-- C1 (counterexample): with a record whose text contains the query as a
substring and another record whose tag equals the query, `search_quote`
returns the tag-matched record — which is outside the Phase-1 substring
candidate set — even though that set is non-empty. -/
theorem search_quote_phase1_cex :
    partialTextMatches [sqHello1, sqHello2] "g" none "hello" = [sqHello1] ∧
    searchQuote segIdent 0 [] "g" "hello" none [sqHello1, sqHello2] =
      (some (SearchPhase.exactTag, sqHello2), [("g_all", [2])]) ∧
    sqHello2 ∉ partialTextMatches [sqHello1, sqHello2] "g" none "hello" :=
  ⟨by decide, by decide, by decide⟩

/-- C1 (amended): when the substring candidate set is non-empty,
`search_quote` returns a record from that set or from the exact-tag set
(a record with a tag equal case-insensitively to the query), the result
comes from one of the exact-text, exact-tag or partial-text phases, and
the token-fuzzy fallback never runs — the outcome is independent of the
tokenizer. -/
theorem search_quote_phase1_amended (segCut : String → List String) (pick : Nat)
    (hist : Histories) (gid kw : String) (uf : Option String) (db : List Quote)
    (hp : partialTextMatches db gid uf kw ≠ []) :
    ∃ ph q h2, searchQuote segCut pick hist gid kw uf db = (some (ph, q), h2) ∧
      (ph = SearchPhase.exactText ∨ ph = SearchPhase.exactTag ∨
        ph = SearchPhase.partialText) ∧
      (q ∈ partialTextMatches db gid uf kw ∨
        q ∈ idLookup db (exactTagIds db gid uf kw)) ∧
      ∀ segCut2 : String → List String,
        searchQuote segCut2 pick hist gid kw uf db =
          searchQuote segCut pick hist gid kw uf db := by
  have hscope : ¬ (scopedQuotes db gid uf).length = 0 := by
    obtain ⟨q, hq⟩ := List.exists_mem_of_ne_nil _ hp
    have hmem : q ∈ scopedQuotes db gid uf := (List.mem_filter.mp hq).1
    simpa [List.length_eq_zero] using List.ne_nil_of_mem hmem
  by_cases h1 : exactTextMatches db gid uf kw = []
  · by_cases h2 : exactTagIds db gid uf kw = []
    · have hred : ∀ s : String → List String,
          searchQuote s pick hist gid kw uf db =
            runSelect SearchPhase.partialText pick hist (memoryKey gid uf)
              (partialTextMatches db gid uf kw) := by
        intro s
        unfold searchQuote
        rw [if_neg hscope, if_neg (not_not_intro h1), if_neg (not_not_intro h2),
          if_pos hp]
      refine ⟨SearchPhase.partialText,
        selectedQuote pick hist (memoryKey gid uf) (partialTextMatches db gid uf kw),
        histSet hist (memoryKey gid uf)
          (fifoApp (histGet hist (memoryKey gid uf))
            (selectedQuote pick hist (memoryKey gid uf)
              (partialTextMatches db gid uf kw)).id),
        ?_, Or.inr (Or.inr rfl), Or.inl (selectedQuote_mem _ _ _ _ hp), ?_⟩
      · rw [hred segCut, runSelect_ok _ _ _ _ _ hp]
      · intro s2
        rw [hred s2, hred segCut]
    · have hlk : idLookup db (exactTagIds db gid uf kw) ≠ [] :=
        idLookup_ne_nil db _ (exactTagIds_sub db gid uf kw) h2
      have hred : ∀ s : String → List String,
          searchQuote s pick hist gid kw uf db =
            runSelect SearchPhase.exactTag pick hist (memoryKey gid uf)
              (idLookup db (exactTagIds db gid uf kw)) := by
        intro s
        unfold searchQuote
        rw [if_neg hscope, if_neg (not_not_intro h1), if_pos h2]
      refine ⟨SearchPhase.exactTag,
        selectedQuote pick hist (memoryKey gid uf)
          (idLookup db (exactTagIds db gid uf kw)),
        histSet hist (memoryKey gid uf)
          (fifoApp (histGet hist (memoryKey gid uf))
            (selectedQuote pick hist (memoryKey gid uf)
              (idLookup db (exactTagIds db gid uf kw))).id),
        ?_, Or.inr (Or.inl rfl), Or.inr (selectedQuote_mem _ _ _ _ hlk), ?_⟩
      · rw [hred segCut, runSelect_ok _ _ _ _ _ hlk]
      · intro s2
        rw [hred s2, hred segCut]
  · have hred : ∀ s : String → List String,
        searchQuote s pick hist gid kw uf db =
          runSelect SearchPhase.exactText pick hist (memoryKey gid uf)
            (exactTextMatches db gid uf kw) := by
      intro s
      unfold searchQuote
      rw [if_neg hscope, if_pos h1]
    refine ⟨SearchPhase.exactText,
      selectedQuote pick hist (memoryKey gid uf) (exactTextMatches db gid uf kw),
      histSet hist (memoryKey gid uf)
        (fifoApp (histGet hist (memoryKey gid uf))
          (selectedQuote pick hist (memoryKey gid uf)
            (exactTextMatches db gid uf kw)).id),
      ?_, Or.inl rfl,
      Or.inl (exactText_sub_partialText db gid uf kw _
        (selectedQuote_mem _ _ _ _ h1)), ?_⟩
    · rw [hred segCut, runSelect_ok _ _ _ _ _ h1]
    · intro s2
      rw [hred s2, hred segCut]

/-- Witness for the amended C1 at a concrete one-record store. -/
theorem search_quote_phase1_amended_witness :
    partialTextMatches [sqHello1] "g" none "hello" ≠ [] ∧
    ∃ ph q h2, searchQuote segIdent 0 [] "g" "hello" none [sqHello1] =
        (some (ph, q), h2) ∧
      (ph = SearchPhase.exactText ∨ ph = SearchPhase.exactTag ∨
        ph = SearchPhase.partialText) ∧
      (q ∈ partialTextMatches [sqHello1] "g" none "hello" ∨
        q ∈ idLookup [sqHello1] (exactTagIds [sqHello1] "g" none "hello")) ∧
      ∀ segCut2 : String → List String,
        searchQuote segCut2 0 [] "g" "hello" none [sqHello1] =
          searchQuote segIdent 0 [] "g" "hello" none [sqHello1] :=
  ⟨by decide,
   search_quote_phase1_amended segIdent 0 [] "g" "hello" none [sqHello1] (by decide)⟩

/-- C2 (counterexample): querying `"alpha beta"` (tokenized into
`["alpha", "beta", "alpha beta"]`) returns a record that contains
`"alpha"` but neither `"beta"` in its texts nor any tag — the token phase
is an OR across tokens, not an AND across terms. -/
theorem search_quote_and_semantics_cex :
    cut_sentence segAlphaBeta (some "alpha beta") =
      ["alpha", "beta", "alpha beta"] ∧
    searchQuote segAlphaBeta 0 [] "g" "alpha beta" none [sqAlpha] =
      (some (SearchPhase.token, sqAlpha), [("g_all", [1])]) ∧
    icontainsOpt sqAlpha.ocr_text "beta" = false ∧
    icontainsOpt sqAlpha.recorded_text "beta" = false ∧
    sqAlpha.tags = [] :=
  ⟨by decide, by decide, by decide, by decide, by decide⟩

/-- C2 (amended): the query is never split on whitespace into AND-combined
terms; in the token phase `search_quote` ORs the per-token conditions, so
whenever the four earlier phases are empty, any scoped record whose text
matches at least one token of the tokenized query is a candidate, and the
result is drawn from that OR-union candidate set. -/
theorem search_quote_token_or (segCut : String → List String) (pick : Nat)
    (hist : Histories) (gid kw : String) (uf : Option String) (db : List Quote)
    (h1 : exactTextMatches db gid uf kw = [])
    (h2 : exactTagIds db gid uf kw = [])
    (h3 : partialTextMatches db gid uf kw = [])
    (h4 : partialTagIds db gid uf kw = [])
    (q : Quote) (hq : q ∈ scopedQuotes db gid uf)
    (tk : String) (htk : tk ∈ cut_sentence segCut (some kw))
    (hmatch : icontainsOpt q.ocr_text tk = true ∨
      icontainsOpt q.recorded_text tk = true) :
    q ∈ tokenMatches db gid uf (cut_sentence segCut (some kw)) ∧
    ∃ q2 h5, searchQuote segCut pick hist gid kw uf db =
        (some (SearchPhase.token, q2), h5) ∧
      q2 ∈ tokenMatches db gid uf (cut_sentence segCut (some kw)) := by
  have hqtm : q ∈ tokenTextMatches db gid uf (cut_sentence segCut (some kw)) := by
    unfold tokenTextMatches
    refine List.mem_filter.mpr ⟨hq, ?_⟩
    rw [List.any_eq_true]
    refine ⟨tk, htk, ?_⟩
    rcases hmatch with h | h <;> simp [h]
  have hqm : q ∈ tokenMatches db gid uf (cut_sentence segCut (some kw)) := by
    unfold tokenMatches
    rw [List.mem_dedup]
    exact List.mem_append_left _ hqtm
  have htokne : cut_sentence segCut (some kw) ≠ [] := List.ne_nil_of_mem htk
  have htmne : tokenMatches db gid uf (cut_sentence segCut (some kw)) ≠ [] :=
    List.ne_nil_of_mem hqm
  have hscope : ¬ (scopedQuotes db gid uf).length = 0 := by
    simpa [List.length_eq_zero] using List.ne_nil_of_mem hq
  refine ⟨hqm, selectedQuote pick hist (memoryKey gid uf)
      (tokenMatches db gid uf (cut_sentence segCut (some kw))),
    histSet hist (memoryKey gid uf)
      (fifoApp (histGet hist (memoryKey gid uf))
        (selectedQuote pick hist (memoryKey gid uf)
          (tokenMatches db gid uf (cut_sentence segCut (some kw)))).id),
    ?_, selectedQuote_mem _ _ _ _ htmne⟩
  unfold searchQuote
  rw [if_neg hscope, if_neg (not_not_intro h1), if_neg (not_not_intro h2),
    if_neg (not_not_intro h3), if_neg (not_not_intro h4), if_neg htokne,
    if_pos htmne, runSelect_ok _ _ _ _ _ htmne]

/-- Witness for the amended C2: a record matching only the token
`"alpha"` of the query `"alpha beta"` is in the token candidate set and is
returned. -/
theorem search_quote_token_or_witness :
    (exactTextMatches [sqAlpha] "g" none "alpha beta" = [] ∧
     exactTagIds [sqAlpha] "g" none "alpha beta" = [] ∧
     partialTextMatches [sqAlpha] "g" none "alpha beta" = [] ∧
     partialTagIds [sqAlpha] "g" none "alpha beta" = [] ∧
     sqAlpha ∈ scopedQuotes [sqAlpha] "g" none ∧
     "alpha" ∈ cut_sentence segAlphaBeta (some "alpha beta") ∧
     icontainsOpt sqAlpha.ocr_text "alpha" = true) ∧
    (sqAlpha ∈ tokenMatches [sqAlpha] "g" none
        (cut_sentence segAlphaBeta (some "alpha beta")) ∧
     ∃ q2 h5, searchQuote segAlphaBeta 0 [] "g" "alpha beta" none [sqAlpha] =
         (some (SearchPhase.token, q2), h5) ∧
       q2 ∈ tokenMatches [sqAlpha] "g" none
         (cut_sentence segAlphaBeta (some "alpha beta"))) :=
  ⟨⟨by decide, by decide, by decide, by decide, by decide, by decide, by decide⟩,
   search_quote_token_or segAlphaBeta 0 [] "g" "alpha beta" none [sqAlpha]
     (by decide) (by decide) (by decide) (by decide) sqAlpha (by decide)
     "alpha" (by decide) (Or.inl (by decide))⟩

/-- C10: in `get_random_quote`, when the scoped record count exceeds the
memory size and every scoped record's id is in the key's recent history,
the stored history for that key is cleared before reselecting, leaving
exactly the newly chosen id; in every other successful case the history
for the key just grows by the appended chosen id with FIFO trimming, and
an empty scope returns `None` leaving the history untouched. -/
theorem get_random_quote_memory_reset (pick : Nat) (hist : Histories)
    (gid : String) (uf : Option String) (db : List Quote) :
    ((scopedQuotes db gid uf).length > maxMemorySize →
      histGet hist (memoryKey gid uf) ≠ [] →
      (∀ q ∈ scopedQuotes db gid uf, q.id ∈ histGet hist (memoryKey gid uf)) →
      ∃ q, q ∈ scopedQuotes db gid uf ∧
        getRandomQuote pick hist gid uf db =
          (some q, histSet hist (memoryKey gid uf) [q.id])) ∧
    (((scopedQuotes db gid uf).length ≤ maxMemorySize ∨
      histGet hist (memoryKey gid uf) = [] ∨
      ∃ c ∈ scopedQuotes db gid uf, c.id ∉ histGet hist (memoryKey gid uf)) →
      (scopedQuotes db gid uf).length ≠ 0 →
      ∃ q, q ∈ scopedQuotes db gid uf ∧
        getRandomQuote pick hist gid uf db =
          (some q, histSet hist (memoryKey gid uf)
            (fifoApp (histGet hist (memoryKey gid uf)) q.id))) ∧
    ((scopedQuotes db gid uf).length = 0 →
      getRandomQuote pick hist gid uf db = (none, hist)) := by
  refine ⟨?_, ?_, ?_⟩
  · intro hlen hne hall
    have hne0 : ¬ (scopedQuotes db gid uf).length = 0 := by omega
    have hgt : ¬ (scopedQuotes db gid uf).length ≤ maxMemorySize := by omega
    have hsne : scopedQuotes db gid uf ≠ [] := by
      intro hnil
      rw [hnil] at hlen
      simp [maxMemorySize] at hlen
    have hrem : (scopedQuotes db gid uf).filter
        (fun q => decide (q.id ∉ histGet hist (memoryKey gid uf))) = [] := by
      rw [List.filter_eq_nil_iff]
      intro q hq
      simp [hall q hq]
    refine ⟨selectedQuote pick (histSet hist (memoryKey gid uf) [])
      (memoryKey gid uf) (scopedQuotes db gid uf),
      selectedQuote_mem _ _ _ _ hsne, ?_⟩
    rw [getRandomQuote, if_neg hne0, if_neg hgt, if_neg hne, if_pos hrem,
      selectAndRecord_ok _ _ _ _ hsne]
    simp only [toOpt, histGet_histSet_self, fifoApp_nil, histSet_histSet]
  · intro hdisj hne0
    have hsne : scopedQuotes db gid uf ≠ [] := by
      intro hnil
      rw [hnil] at hne0
      exact hne0 rfl
    by_cases hle : (scopedQuotes db gid uf).length ≤ maxMemorySize
    · refine ⟨selectedQuote pick hist (memoryKey gid uf) (scopedQuotes db gid uf),
        selectedQuote_mem _ _ _ _ hsne, ?_⟩
      rw [getRandomQuote, if_neg hne0, if_pos hle, selectAndRecord_ok _ _ _ _ hsne]
      rfl
    · by_cases hrec : histGet hist (memoryKey gid uf) = []
      · refine ⟨selectedQuote pick hist (memoryKey gid uf) (scopedQuotes db gid uf),
          selectedQuote_mem _ _ _ _ hsne, ?_⟩
        rw [getRandomQuote, if_neg hne0, if_neg hle, if_pos hrec,
          selectAndRecord_ok _ _ _ _ hsne]
        rfl
      · have hrem : (scopedQuotes db gid uf).filter
            (fun q => decide (q.id ∉ histGet hist (memoryKey gid uf))) ≠ [] := by
          rcases hdisj with h | h | ⟨c, hc, hcid⟩
          · exact absurd h hle
          · exact absurd h hrec
          · intro hnil
            rw [List.filter_eq_nil_iff] at hnil
            exact hnil c hc (by simpa using hcid)
        refine ⟨selectedQuote pick hist (memoryKey gid uf)
          ((scopedQuotes db gid uf).filter
            (fun q => decide (q.id ∉ histGet hist (memoryKey gid uf)))), ?_, ?_⟩
        · exact (List.mem_filter.mp (selectedQuote_mem _ _ _ _ hrem)).1
        · rw [getRandomQuote, if_neg hne0, if_neg hle, if_neg hrec, if_neg hrem,
            selectAndRecord_ok _ _ _ _ hrem]
          rfl
  · intro h0
    rw [getRandomQuote, if_pos h0]

/-- Witness for C10: eleven scoped records whose ids are all in the key's
recent history trigger the reset branch, leaving a one-element history. -/
theorem get_random_quote_memory_reset_witness :
    ((scopedQuotes bigDb "g" none).length > maxMemorySize ∧
     histGet bigHist (memoryKey "g" none) ≠ [] ∧
     (∀ q ∈ scopedQuotes bigDb "g" none,
       q.id ∈ histGet bigHist (memoryKey "g" none))) ∧
    ∃ q, q ∈ scopedQuotes bigDb "g" none ∧
      getRandomQuote 0 bigHist "g" none bigDb =
        (some q, histSet bigHist (memoryKey "g" none) [q.id]) :=
  ⟨⟨by decide, by decide, by decide⟩,
   (get_random_quote_memory_reset 0 bigHist "g" none bigDb).1
     (by decide) (by decide) (by decide)⟩

/-- C5 (counterexample): the bulk-deletion search both (a) returns a
record whose texts do not contain the keyword, because tags are matched
too, and (b) applies a tokenization fallback when the direct pass is
empty, returning a record matching only a token of the keyword. -/
theorem search_deletion_cex :
    (searchQuotesForDeletion segIdent "g" "abc" none [delTagQuote] =
        [delTagQuote] ∧
     delTextCond "abc" delTagQuote = false) ∧
    (searchQuotesForDeletion segZzzHello "g" "zzz hello" none [delTokQuote] =
        [delTokQuote] ∧
     delTextCond "zzz hello" delTokQuote = false) :=
  ⟨⟨by decide, by decide⟩, ⟨by decide, by decide⟩⟩

/-- C5 (amended): for a store with distinct row ids,
`search_quotes_for_deletion` returns exactly the scoped records whose
`ocr_text`/`recorded_text` contain the single keyword case-insensitively
or one of whose tags contains it; only when that direct union is empty
does it apply the `cut_sentence` token fallback (OR across tokens, over
texts and tags); with a non-empty direct union the result is independent
of the tokenizer. -/
theorem search_deletion_amended (segCut : String → List String) (gid kw : String)
    (uf : Option String) (db : List Quote)
    (hnodup : (db.map Quote.id).Nodup) :
    (delDirectMatches db gid uf kw ≠ [] →
      (∀ q, q ∈ searchQuotesForDeletion segCut gid kw uf db ↔
        q ∈ scopedQuotes db gid uf ∧
          (delTextCond kw q = true ∨ delTagCond kw q = true)) ∧
      ∀ segCut2 : String → List String,
        searchQuotesForDeletion segCut2 gid kw uf db =
          searchQuotesForDeletion segCut gid kw uf db) ∧
    (delDirectMatches db gid uf kw = [] → cut_sentence segCut (some kw) = [] →
      searchQuotesForDeletion segCut gid kw uf db = []) ∧
    (delDirectMatches db gid uf kw = [] → cut_sentence segCut (some kw) ≠ [] →
      (scopedQuotes db gid uf).length ≠ 0 →
      ∀ q, q ∈ searchQuotesForDeletion segCut gid kw uf db ↔
        q ∈ scopedQuotes db gid uf ∧
          ((cut_sentence segCut (some kw)).any
            (fun tk => icontainsOpt q.ocr_text tk ||
              icontainsOpt q.recorded_text tk) = true ∨
           (cut_sentence segCut (some kw)).any
            (fun tk => q.tags.any (fun t => strContainsCI t tk)) = true)) := by
  refine ⟨?_, ?_, ?_⟩
  · intro hdir
    have hred : ∀ s : String → List String,
        searchQuotesForDeletion s gid kw uf db = delDirectMatches db gid uf kw := by
      intro s
      unfold searchQuotesForDeletion
      rw [if_neg (delDirect_scope_ne db gid uf kw hdir), if_pos hdir]
    refine ⟨?_, fun s2 => by rw [hred s2, hred segCut]⟩
    intro q
    rw [hred segCut]
    exact mem_delDirect_iff db gid uf kw hnodup q
  · intro hdir htok
    by_cases h0 : (scopedQuotes db gid uf).length = 0
    · unfold searchQuotesForDeletion
      rw [if_pos h0]
    · unfold searchQuotesForDeletion
      rw [if_neg h0, if_neg (not_not_intro hdir), if_pos htok]
  · intro hdir htok h0 q
    unfold searchQuotesForDeletion
    rw [if_neg h0, if_neg (not_not_intro hdir), if_neg htok]
    exact mem_delToken_iff db gid uf (cut_sentence segCut (some kw)) hnodup q

/-- Witness for the amended C5: a tag-matched record is in the result even
though its texts lack the keyword, and the tokenizer is irrelevant there. -/
theorem search_deletion_amended_witness :
    ((([delTagQuote] : List Quote).map Quote.id).Nodup ∧
     delDirectMatches [delTagQuote] "g" none "abc" ≠ []) ∧
    ((∀ q, q ∈ searchQuotesForDeletion segIdent "g" "abc" none [delTagQuote] ↔
        q ∈ scopedQuotes [delTagQuote] "g" none ∧
          (delTextCond "abc" q = true ∨ delTagCond "abc" q = true)) ∧
     ∀ segCut2 : String → List String,
       searchQuotesForDeletion segCut2 "g" "abc" none [delTagQuote] =
         searchQuotesForDeletion segIdent "g" "abc" none [delTagQuote]) :=
  ⟨⟨by decide, by decide⟩,
   (search_deletion_amended segIdent "g" "abc" none [delTagQuote] (by decide)).1
     (by decide)⟩

/-- C9 (counterexample): a store failure during `search_quote` yields
exactly the same observable outcome `(None, unchanged history)` as a
successful search over an empty store — failure is not distinguishable
from the not-found/empty result. -/
theorem store_failure_cex :
    searchQuoteStore true segIdent 0 [] "g" "kw" none [wq 1] =
      searchQuoteStore false segIdent 0 [] "g" "kw" none [] := by
  decide

/-- C9 (amended/actual behavior): when the store raises, `search_quote`
and `get_random_quote` swallow the exception and return `None` with the
history untouched — the same value as the empty/not-found outcome — and
`add_quote` returns `(None, False)` without inserting, which is
distinguishable from its success outcomes since every non-failing
`add_quote` returns a record. -/
theorem store_failure_swallowed (segCut : String → List String) (pick : Nat)
    (hist : Histories) (gid kw path : String) (uf : Option String)
    (db : List Quote) (nid : Nat) (ocr rec qu hash up : Option String) :
    searchQuoteStore true segCut pick hist gid kw uf db = (none, hist) ∧
    searchQuoteStore true segCut pick hist gid kw uf db =
      searchQuoteStore false segCut pick hist gid kw uf [] ∧
    getRandomQuoteStore true pick hist gid uf db = (none, hist) ∧
    addQuoteStore true segCut db nid gid path ocr rec qu hash up =
      ((none, false), db) ∧
    (addQuoteStore false segCut db nid gid path ocr rec qu hash up).1.1.isSome
      = true := by
  refine ⟨rfl, ?_, rfl, rfl, ?_⟩
  · simp [searchQuoteStore, searchQuote, scopedQuotes]
  · simpa [addQuoteStore] using
      addQuote_fst_isSome segCut db nid gid path ocr rec qu hash up

/-- Witness for C3: ingesting a fresh image hash into an empty store
creates a record, and re-ingesting the same hash returns that record with
`isNew = false`, changing nothing. -/
theorem add_quote_dedup_witness :
    (optTruthy (some "h") = true ∧
     (addQuote segIdent [] 1 "g" "p1" none none none (some "h") none).1.2 = true) ∧
    ∃ q1, (addQuote segIdent [] 1 "g" "p1" none none none (some "h") none).1.1
        = some q1 ∧
      addQuote segIdent (addQuote segIdent [] 1 "g" "p1" none none none (some "h") none).2
          2 "g" "p2" none none none (some "h") none =
        ((some q1, false),
         (addQuote segIdent [] 1 "g" "p1" none none none (some "h") none).2) :=
  ⟨⟨by decide, by decide⟩,
   (add_quote_dedup segIdent [] 1 "g" "p1" none none none (some "h") none).2.2.2
     (by decide) (by decide) segIdent 2 "p2" none none none none⟩

/-- C4: on a non-empty candidate list, `_select_and_record_quote` returns a
record whose id is outside the key's recent history whenever such a
candidate exists and in any case a member of the candidate list; the chosen
id is appended to the key's history with the oldest entry evicted when the
length exceeds the bound, so the ≤ 10 FIFO bound is preserved on every
key's history. -/
theorem select_and_record_spec (pick : Nat) (hist : Histories) (key : String)
    (quotes : List Quote) (h : quotes ≠ []) :
    ∃ q, selectAndRecordQuote pick hist key quotes =
        (Except.ok q, histSet hist key (fifoApp (histGet hist key) q.id)) ∧
      q ∈ quotes ∧
      ((∃ c ∈ quotes, c.id ∉ histGet hist key) → q.id ∉ histGet hist key) ∧
      (∀ k, (histGet hist k).length ≤ maxMemorySize →
        (histGet (histSet hist key (fifoApp (histGet hist key) q.id)) k).length
          ≤ maxMemorySize) := by
  refine ⟨selectedQuote pick hist key quotes, selectAndRecord_ok pick hist key quotes h,
    selectedQuote_mem pick hist key quotes h,
    fun hc => selectedQuote_unseen pick hist key quotes hc, ?_⟩
  intro k hk
  by_cases hkk : k = key
  · subst hkk
    rw [histGet_histSet_self]
    exact fifoApp_length_le _ _ hk
  · rw [histGet_histSet_ne _ _ _ _ hkk]
    exact hk

/-- Witness for C4 at a concrete input. -/
theorem select_and_record_spec_witness :
    (([wq 1] : List Quote) ≠ []) ∧
    ∃ q, selectAndRecordQuote 0 [] "k" [wq 1] =
        (Except.ok q, histSet [] "k" (fifoApp (histGet [] "k") q.id)) ∧
      q ∈ [wq 1] ∧
      ((∃ c ∈ ([wq 1] : List Quote), c.id ∉ histGet ([] : Histories) "k") →
        q.id ∉ histGet ([] : Histories) "k") ∧
      (∀ k, (histGet ([] : Histories) k).length ≤ maxMemorySize →
        (histGet (histSet [] "k" (fifoApp (histGet [] "k") q.id)) k).length
          ≤ maxMemorySize) :=
  ⟨by simp, select_and_record_spec 0 [] "k" [wq 1] (by simp)⟩

/-- C8: calling `_select_and_record_quote` with an empty candidate list
raises `ValueError` and leaves the recent-history state exactly as it was;
every non-empty candidate list returns normally. -/
theorem select_empty_raises (pick : Nat) (hist : Histories) (key : String)
    (quotes : List Quote) :
    (quotes = [] → selectAndRecordQuote pick hist key quotes =
      (Except.error (PyError.valueError "语录列表为空"), hist)) ∧
    (quotes ≠ [] →
      ∃ q h2, selectAndRecordQuote pick hist key quotes = (Except.ok q, h2)) := by
  constructor
  · intro hq
    unfold selectAndRecordQuote
    rw [if_pos hq]
  · intro hq
    exact ⟨_, _, selectAndRecord_ok pick hist key quotes hq⟩

/-- Witness for C8: the raise (state unchanged) at an empty list, and a
normal return at a singleton list. -/
theorem select_empty_raises_witness :
    selectAndRecordQuote 0 [] "k" [] =
      (Except.error (PyError.valueError "语录列表为空"), ([] : Histories)) ∧
    ∃ q h2, selectAndRecordQuote 0 [] "k" [wq 2] = (Except.ok q, h2) :=
  ⟨(select_empty_raises 0 [] "k" []).1 rfl,
   (select_empty_raises 0 [] "k" [wq 2]).2 (by simp)⟩

/-- C6 (failing input): a tokenizer that returns the short input itself as
its only token makes `cut_sentence` emit the string twice — the stored tag
list at creation is not duplicate-free. -/
theorem cut_sentence_emits_duplicate :
    cut_sentence (fun _ => ["hello"]) (some "hello") = ["hello", "hello"] ∧
    ¬ (cut_sentence (fun _ => ["hello"]) (some "hello")).Nodup := by
  have h1 : cut_sentence (fun _ => ["hello"]) (some "hello") = ["hello", "hello"] := by
    decide
  refine ⟨h1, ?_⟩
  rw [h1]
  decide

/-- C7: `cut_sentence` maps null and empty input to the empty list, and
for original input of at most 10 characters whose trimmed form is
non-empty and not in the remove set, the trimmed original string is one of
the returned tags. -/
theorem cut_sentence_short_text (segCut : String → List String) (text : String)
    (hlen : text.length ≤ 10) (hne : pyStrip text ≠ "")
    (hnr : pyStrip text ∉ removeSet) :
    cut_sentence segCut none = [] ∧ cut_sentence segCut (some "") = [] ∧
    pyStrip text ∈ cut_sentence segCut (some text) := by
  refine ⟨rfl, by simp [cut_sentence], ?_⟩
  have htext : text ≠ "" := by
    intro hh
    subst hh
    exact hne (by decide)
  simp only [cut_sentence]
  rw [if_neg htext, if_pos ⟨hlen, hne, hnr⟩]
  exact List.mem_append_right _ (List.mem_singleton.mpr rfl)

/-- Witness for C7 at the concrete short input `"hi"`. -/
theorem cut_sentence_short_text_witness :
    ("hi".length ≤ 10 ∧ pyStrip "hi" ≠ "" ∧ pyStrip "hi" ∉ removeSet) ∧
    (cut_sentence segIdent none = [] ∧ cut_sentence segIdent (some "") = [] ∧
     pyStrip "hi" ∈ cut_sentence segIdent (some "hi")) :=
  ⟨by decide, cut_sentence_short_text segIdent "hi" (by decide) (by decide) (by decide)⟩

end QuoteEngine


